import Mathlib

/-!
Shallow embedding of the command-line dispatch layer in
src/packages/vite/src/node/cli.ts.

JavaScript option bags are modelled as association lists of
(key, value) pairs in insertion order; `delete` on an object is
modelled as filtering the key out, and the spread `{ ...options }`
as copying the list.  A key bound to the JS value `undefined` is a
present key (spread keeps it; only `delete` removes it), so values
carry an explicit `undefined` constructor and absence is `none` from
`lookupKey`.
-/

namespace ViteCli

/-- A JavaScript value as it can appear in a parsed CLI options bag:
`undefined`, a boolean, a string, a number, or an array of strings
(the `--` passthrough key). -/
inductive JSValue where
  | undefined
  | bool (b : Bool)
  | str (s : String)
  | num (n : Int)
  | strs (xs : List String)
deriving DecidableEq

/-- A parsed options object: keys with their values, in insertion order. -/
abbrev OptionsBag := List (String × JSValue)

/-- Property read `m[k]`: `none` when the key is absent, `some v` when
present (possibly `some .undefined`). -/
def lookupKey : OptionsBag → String → Option JSValue
  | [], _ => none
  | (k, v) :: rest, q => if k = q then some v else lookupKey rest q

/-- Property access `options.k` in JS: yields `undefined` when the key
is absent. -/
def getProp (m : OptionsBag) (k : String) : JSValue :=
  (lookupKey m k).getD .undefined

/-- The JS statement `delete ret.k`: removes the key (all bindings of it). -/
def jsDelete (m : OptionsBag) (k : String) : OptionsBag :=
  m.filter (fun p => p.1 != k)

/-- cli.ts lines 33-51, `cleanOptions`: spread-copy the bag, then delete
each global flag key in source order, and return the copy. -/
def cleanOptions (options : OptionsBag) : OptionsBag :=
  let ret := options
  let ret := jsDelete ret "--"
  let ret := jsDelete ret "debug"
  let ret := jsDelete ret "d"
  let ret := jsDelete ret "filter"
  let ret := jsDelete ret "f"
  let ret := jsDelete ret "config"
  let ret := jsDelete ret "c"
  let ret := jsDelete ret "root"
  let ret := jsDelete ret "base"
  let ret := jsDelete ret "r"
  let ret := jsDelete ret "mode"
  let ret := jsDelete ret "m"
  let ret := jsDelete ret "logLevel"
  let ret := jsDelete ret "l"
  let ret := jsDelete ret "clearScreen"
  ret

/-- The fixed set of tool-wide (global) flag keys deleted by
`cleanOptions`, in the order the source deletes them. -/
def globalKeys : List String :=
  ["--", "debug", "d", "filter", "f", "config", "c", "root", "base",
   "r", "mode", "m", "logLevel", "l", "clearScreen"]

/-- Folding `jsDelete` over a list of keys; `cleanOptions` is this fold
over `globalKeys`. -/
def deleteKeys (m : OptionsBag) (ks : List String) : OptionsBag :=
  ks.foldl jsDelete m

theorem cleanOptions_eq_deleteKeys (m : OptionsBag) :
    cleanOptions m = deleteKeys m globalKeys := by
  simp only [cleanOptions, deleteKeys, globalKeys, List.foldl_cons, List.foldl_nil]

theorem lookupKey_jsDelete (m : OptionsBag) (k0 q : String) :
    lookupKey (jsDelete m k0) q = if q = k0 then none else lookupKey m q := by
  induction m with
  | nil => simp [jsDelete, lookupKey, ite_self]
  | cons hd tl ih =>
    obtain ⟨k, v⟩ := hd
    by_cases hk : k = k0
    · have hfilter : jsDelete ((k, v) :: tl) k0 = jsDelete tl k0 := by
        simp [jsDelete, List.filter_cons, hk]
      rw [hfilter, ih]
      by_cases hq : q = k0
      · simp [hq]
      · have hkq : ¬ k = q := fun h => hq (h ▸ hk)
        simp [lookupKey, hq, hkq]
    · have hfilter : jsDelete ((k, v) :: tl) k0 = (k, v) :: jsDelete tl k0 := by
        simp [jsDelete, List.filter_cons, hk]
      rw [hfilter]
      by_cases hkq : k = q
      · have hq : ¬ q = k0 := fun h => hk (hkq.trans h)
        simp [lookupKey, hkq, hq]
      · simp [lookupKey, hkq, ih]

theorem lookupKey_deleteKeys (ks : List String) (m : OptionsBag) (q : String) :
    lookupKey (deleteKeys m ks) q = if q ∈ ks then none else lookupKey m q := by
  induction ks generalizing m with
  | nil => simp [deleteKeys]
  | cons k0 ks ih =>
    have step : deleteKeys m (k0 :: ks) = deleteKeys (jsDelete m k0) ks := rfl
    rw [step, ih, lookupKey_jsDelete]
    by_cases h1 : q ∈ ks
    · simp [h1]
    · by_cases h2 : q = k0 <;> simp [h1, h2]

theorem deleteKeys_sublist (ks : List String) (m : OptionsBag) :
    List.Sublist (deleteKeys m ks) m := by
  induction ks generalizing m with
  | nil => simp [deleteKeys]
  | cons k0 ks ih =>
    have step : deleteKeys m (k0 :: ks) = deleteKeys (jsDelete m k0) ks := rfl
    rw [step]
    exact (ih (jsDelete m k0)).trans (List.filter_sublist m)

/-- The content of claim C1, shared by later proofs: `cleanOptions`
behaves as lookup-preserving removal of exactly the global keys. -/
theorem lookupKey_cleanOptions (m : OptionsBag) (q : String) :
    lookupKey (cleanOptions m) q =
      if q ∈ globalKeys then none else lookupKey m q := by
  rw [cleanOptions_eq_deleteKeys, lookupKey_deleteKeys]

/-- Claim C1: for every options bag, the result of `cleanOptions` has no
global key, agrees with the input on every other key, and adds nothing
(it is a sublist of the input). -/
theorem cleanOptions_removes_globals_only (m : OptionsBag) (q : String) :
    (lookupKey (cleanOptions m) q =
      if q ∈ globalKeys then none else lookupKey m q)
    ∧ List.Sublist (cleanOptions m) m := by
  refine ⟨lookupKey_cleanOptions m q, ?_⟩
  rw [cleanOptions_eq_deleteKeys]
  exact deleteKeys_sublist globalKeys m

theorem deleteKeys_eq_filter (ks : List String) (m : OptionsBag) :
    deleteKeys m ks = m.filter (fun p => !(ks.contains p.1)) := by
  induction ks generalizing m with
  | nil => simp [deleteKeys]
  | cons k0 ks ih =>
    have step : deleteKeys m (k0 :: ks) = deleteKeys (jsDelete m k0) ks := rfl
    rw [step, ih, jsDelete, List.filter_filter]
    congr 1
    funext p
    by_cases hpk : p.1 = k0 <;> by_cases hpks : p.1 ∈ ks <;>
      simp [List.contains_cons, bne, hpk, hpks]

theorem cleanOptions_idem (m : OptionsBag) :
    cleanOptions (cleanOptions m) = cleanOptions m := by
  simp only [cleanOptions_eq_deleteKeys, deleteKeys_eq_filter, List.filter_filter]
  congr 1
  funext p
  simp

/-! To state that `cleanOptions` does not mutate its argument, JS object
references are made explicit: a store is a list of objects and a
reference an index into it.  The body of `cleanOptions` first allocates
a fresh object by spreading the argument (`const ret = { ...options }`)
and every subsequent `delete` statement targets that fresh object `ret`,
never the argument, so the call extends the store with one new object
and leaves every existing reference, the argument included, unchanged. -/

abbrev Ref := Nat

abbrev Store := List OptionsBag

/-- `cleanOptions` as a store transformer: read the argument object,
allocate the cleaned copy at a fresh reference, return that reference. -/
def cleanOptionsProc (s : Store) (r : Ref) : Store × Ref :=
  let options := s.getD r []
  let ret := cleanOptions options
  (s ++ [ret], s.length)

theorem getD_append_left (s t : Store) (r : Nat) (h : r < s.length) :
    (s ++ t).getD r [] = s.getD r [] := by
  induction s generalizing r with
  | nil => exact absurd h (Nat.not_lt_zero r)
  | cons hd tl ih =>
    cases r with
    | zero => rfl
    | succ r =>
      have : r < tl.length := Nat.lt_of_succ_lt_succ h
      simpa [List.getD_cons_succ] using ih r this

/-- Claim C2: `cleanOptions` is idempotent, and, run on a store, it
returns a fresh reference and leaves the argument object unchanged. -/
theorem cleanOptions_idempotent_nonmutating (x : OptionsBag) (s : Store)
    (r : Ref) (h : r < s.length) :
    cleanOptions (cleanOptions x) = cleanOptions x
    ∧ (cleanOptionsProc s r).1.getD r [] = s.getD r []
    ∧ (cleanOptionsProc s r).2 ≠ r := by
  refine ⟨cleanOptions_idem x, ?_, ?_⟩
  · exact getD_append_left s [cleanOptions (s.getD r [])] r h
  · exact fun hr => absurd ((show s.length = r from hr) ▸ h) (Nat.lt_irrefl r)

/-- Witness for C2 at a concrete bag and a one-object store. -/
theorem cleanOptions_idempotent_nonmutating_wit :
    cleanOptions (cleanOptions [("root", JSValue.str "a"), ("port", JSValue.num 1)])
        = cleanOptions [("root", JSValue.str "a"), ("port", JSValue.num 1)]
    ∧ (cleanOptionsProc [[("root", JSValue.str "a")]] 0).1.getD 0 []
        = ([[("root", JSValue.str "a")]] : Store).getD 0 []
    ∧ (cleanOptionsProc [[("root", JSValue.str "a")]] 0).2 ≠ 0 :=
  cleanOptions_idempotent_nonmutating _ _ _ (by decide)

/-! The four command handlers (cli.ts lines 97-120, 164-184, 193-215,
221-248).  Each awaited collaborator (dynamic module import, subsystem
entry point, config resolver) is an oracle argument of type `Except`:
`.ok` when the awaited promise resolves, `.error e` when it rejects with
the JS error `e`.  A handler run produces a `Trace`: the subsystem calls
it issued with their exact arguments, the logger error lines from its
catch block, the `process.exit` code if any, and an error that escaped
the handler uncaught.  The dynamic `await import(...)` in the serve,
build and optimize handlers happens before the `try` block, so its
failure is not caught. -/

/-- A thrown JS error, carrying its stack trace text (`e.stack`). -/
structure JsError where
  stack : String
deriving DecidableEq

/-- One logger error line, as issued in a catch block by
`createLogger(options.logLevel).error(chalk.red(message))`: `level` is
the argument passed to `createLogger`, `colored` records the
`chalk.red` wrap, `message` the template string. -/
structure LogEntry where
  level : JSValue
  colored : Bool
  message : String
deriving DecidableEq

/-- The catch-block log line: context text, a colon-newline, then the
stack trace of the caught error. -/
def mkErrLog (options : OptionsBag) (context : String) (e : JsError) : LogEntry :=
  { level := getProp options "logLevel"
    colored := true
    message := context ++ ":\n" ++ e.stack }

/-- The object literal passed to `createServer` (cli.ts lines 103-111). -/
structure ServerCallArg where
  root : JSValue
  base : JSValue
  mode : JSValue
  configFile : JSValue
  logLevel : JSValue
  clearScreen : JSValue
  server : OptionsBag
deriving DecidableEq

/-- The object literal passed to `build` (cli.ts lines 169-177). -/
structure BuildCallArg where
  root : JSValue
  base : JSValue
  mode : JSValue
  configFile : JSValue
  logLevel : JSValue
  clearScreen : JSValue
  build : OptionsBag
deriving DecidableEq

/-- The inline `server: { open: options.open }` override in the preview
handler's `resolveConfig` argument (cli.ts lines 233-235). -/
structure ServerOverrideArg where
  openFlag : JSValue
deriving DecidableEq

/-- The inline config object passed to `resolveConfig` by the optimize
handler (lines 198-203, no `server` key) and the preview handler
(lines 228-236, with the `server.open` override). -/
structure ResolveConfigArg where
  root : JSValue
  base : JSValue
  configFile : JSValue
  logLevel : JSValue
  server : Option ServerOverrideArg
deriving DecidableEq

/-- One call to an external collaborator, with the arguments the source
passes at that call site. -/
inductive SubCall where
  | createServer (arg : ServerCallArg)
  | listen
  | build (arg : BuildCallArg)
  | resolveConfig (arg : ResolveConfigArg) (command : String) (defaultMode : String)
  | optimizeDeps (config : Nat) (force : JSValue) (isManualInvocation : Bool)
  | preview (config : Nat) (port : JSValue)
deriving DecidableEq

/-- What one handler run did. -/
structure Trace where
  calls : List SubCall
  logs : List LogEntry
  exit : Option Nat
  uncaught : Option JsError
deriving DecidableEq

def mkServerCallArg (root : JSValue) (options : OptionsBag) : ServerCallArg :=
  { root := root
    base := getProp options "base"
    mode := getProp options "mode"
    configFile := getProp options "config"
    logLevel := getProp options "logLevel"
    clearScreen := getProp options "clearScreen"
    server := cleanOptions options }

/-- The serve (default) handler, cli.ts lines 97-120. -/
def serveAction (root : JSValue) (options : OptionsBag)
    (importServer : Except JsError Unit)
    (createServerRes : Except JsError Unit)
    (listenRes : Except JsError Unit) : Trace :=
  match importServer with
  | .error e => ⟨[], [], none, some e⟩
  | .ok _ =>
    match createServerRes with
    | .error e =>
      ⟨[SubCall.createServer (mkServerCallArg root options)],
       [mkErrLog options "error when starting dev server" e], some 1, none⟩
    | .ok _ =>
      match listenRes with
      | .error e =>
        ⟨[SubCall.createServer (mkServerCallArg root options), SubCall.listen],
         [mkErrLog options "error when starting dev server" e], some 1, none⟩
      | .ok _ =>
        ⟨[SubCall.createServer (mkServerCallArg root options), SubCall.listen],
         [], none, none⟩

def mkBuildCallArg (root : JSValue) (options : OptionsBag) : BuildCallArg :=
  { root := root
    base := getProp options "base"
    mode := getProp options "mode"
    configFile := getProp options "config"
    logLevel := getProp options "logLevel"
    clearScreen := getProp options "clearScreen"
    build := cleanOptions options }

/-- The build handler, cli.ts lines 164-184. -/
def buildAction (root : JSValue) (options : OptionsBag)
    (importBuild : Except JsError Unit)
    (buildRes : Except JsError Unit) : Trace :=
  match importBuild with
  | .error e => ⟨[], [], none, some e⟩
  | .ok _ =>
    match buildRes with
    | .error e =>
      ⟨[SubCall.build (mkBuildCallArg root options)],
       [mkErrLog options "error during build" e], some 1, none⟩
    | .ok _ =>
      ⟨[SubCall.build (mkBuildCallArg root options)], [], none, none⟩

def mkOptimizeResolveArg (root : JSValue) (options : OptionsBag) : ResolveConfigArg :=
  { root := root
    base := getProp options "base"
    configFile := getProp options "config"
    logLevel := getProp options "logLevel"
    server := none }

/-- The optimize handler, cli.ts lines 193-215. -/
def optimizeAction (root : JSValue) (options : OptionsBag)
    (importOptimizer : Except JsError Unit)
    (resolveRes : Except JsError Nat)
    (optimizeRes : Except JsError Unit) : Trace :=
  match importOptimizer with
  | .error e => ⟨[], [], none, some e⟩
  | .ok _ =>
    match resolveRes with
    | .error e =>
      ⟨[SubCall.resolveConfig (mkOptimizeResolveArg root options) "build" "development"],
       [mkErrLog options "error when optimizing deps" e], some 1, none⟩
    | .ok config =>
      match optimizeRes with
      | .error e =>
        ⟨[SubCall.resolveConfig (mkOptimizeResolveArg root options) "build" "development",
          SubCall.optimizeDeps config (getProp options "force") true],
         [mkErrLog options "error when optimizing deps" e], some 1, none⟩
      | .ok _ =>
        ⟨[SubCall.resolveConfig (mkOptimizeResolveArg root options) "build" "development",
          SubCall.optimizeDeps config (getProp options "force") true],
         [], none, none⟩

def mkPreviewResolveArg (root : JSValue) (options : OptionsBag) : ResolveConfigArg :=
  { root := root
    base := getProp options "base"
    configFile := getProp options "config"
    logLevel := getProp options "logLevel"
    server := some { openFlag := getProp options "open" } }

/-- The preview handler, cli.ts lines 221-248 (its whole body is inside
the try block; `preview` itself is imported statically at line 7). -/
def previewAction (root : JSValue) (options : OptionsBag)
    (resolveRes : Except JsError Nat)
    (previewRes : Except JsError Unit) : Trace :=
  match resolveRes with
  | .error e =>
    ⟨[SubCall.resolveConfig (mkPreviewResolveArg root options) "serve" "development"],
     [mkErrLog options "error when starting preview server" e], some 1, none⟩
  | .ok config =>
    match previewRes with
    | .error e =>
      ⟨[SubCall.resolveConfig (mkPreviewResolveArg root options) "serve" "development",
        SubCall.preview config (getProp options "port")],
       [mkErrLog options "error when starting preview server" e], some 1, none⟩
    | .ok _ =>
      ⟨[SubCall.resolveConfig (mkPreviewResolveArg root options) "serve" "development",
        SubCall.preview config (getProp options "port")],
       [], none, none⟩

/-! Module loading.  cli.ts lines 1-7 import `cac`, `chalk`,
`BuildOptions` from './build', `ServerOptions' from './server',
`createLogger`/`LogLevel` from './logger', `resolveConfig` from '.',
and `preview` from './preview'.  `BuildOptions` and `ServerOptions` are
interfaces used only as types, so TypeScript erases those two import
statements; `preview` is called as a value, so the './preview' import
is kept and runs at startup.  The serve, build and optimize handlers
load their subsystem with `await import(...)` at dispatch (lines 100,
165, 195). -/

inductive CliCommand where
  | serve
  | build
  | optimize
  | preview
deriving DecidableEq

def devServerModule : String := "./server"

def builderModule : String := "./build"

def optimizerModule : String := "./optimizer"

def previewModule : String := "./preview"

/-- Modules loaded at program startup: the import statements that
survive type erasure. -/
def startupModules : List String :=
  ["cac", "chalk", "./logger", ".", "./preview"]

/-- The dynamic `await import(...)` a handler performs when its command
is dispatched. -/
def dynamicImports : CliCommand → List String
  | .serve => ["./server"]
  | .build => ["./build"]
  | .optimize => ["./optimizer"]
  | .preview => []

/-- All modules this file causes to load when running one command. -/
def modulesLoaded (c : CliCommand) : List String :=
  startupModules ++ dynamicImports c

/-- Claim C3 counterexample: an error thrown by the dynamic
module-import step at the start of the serve handler body (line 100,
before the try block) is not caught — nothing is logged and the
process is not exited with status 1; the error escapes the handler. -/
theorem serve_import_error_escapes_cex :
    (serveAction JSValue.undefined [] (Except.error ⟨"boom"⟩)
        (Except.ok ()) (Except.ok ())).logs = []
    ∧ (serveAction JSValue.undefined [] (Except.error ⟨"boom"⟩)
        (Except.ok ()) (Except.ok ())).exit = none
    ∧ (serveAction JSValue.undefined [] (Except.error ⟨"boom"⟩)
        (Except.ok ()) (Except.ok ())).uncaught = some ⟨"boom"⟩ :=
  ⟨rfl, rfl, rfl⟩

/-- Claim C3 (amended): any error thrown inside a handler's try block —
the configuration resolution and subsystem calls — is caught; exactly
one error line, the command's context string followed by the error's
stack trace, is logged via a logger created at the user-specified log
level, and the process exits with status 1.  (The dynamic module import
at the start of the serve, build and optimize handlers precedes the
try block, so an error thrown there is not caught.) -/
theorem handlers_catch_log_once_exit_one (root : JSValue) (opts : OptionsBag)
    (e : JsError) (li oc pc : Except JsError Unit) (cfg : Nat) :
    ((serveAction root opts (.ok ()) (.error e) li).logs
        = [mkErrLog opts "error when starting dev server" e]
      ∧ (serveAction root opts (.ok ()) (.error e) li).exit = some 1)
    ∧ ((serveAction root opts (.ok ()) (.ok ()) (.error e)).logs
        = [mkErrLog opts "error when starting dev server" e]
      ∧ (serveAction root opts (.ok ()) (.ok ()) (.error e)).exit = some 1)
    ∧ ((buildAction root opts (.ok ()) (.error e)).logs
        = [mkErrLog opts "error during build" e]
      ∧ (buildAction root opts (.ok ()) (.error e)).exit = some 1)
    ∧ ((optimizeAction root opts (.ok ()) (.error e) oc).logs
        = [mkErrLog opts "error when optimizing deps" e]
      ∧ (optimizeAction root opts (.ok ()) (.error e) oc).exit = some 1)
    ∧ ((optimizeAction root opts (.ok ()) (.ok cfg) (.error e)).logs
        = [mkErrLog opts "error when optimizing deps" e]
      ∧ (optimizeAction root opts (.ok ()) (.ok cfg) (.error e)).exit = some 1)
    ∧ ((previewAction root opts (.error e) pc).logs
        = [mkErrLog opts "error when starting preview server" e]
      ∧ (previewAction root opts (.error e) pc).exit = some 1)
    ∧ ((previewAction root opts (.ok cfg) (.error e)).logs
        = [mkErrLog opts "error when starting preview server" e]
      ∧ (previewAction root opts (.ok cfg) (.error e)).exit = some 1) :=
  ⟨⟨rfl, rfl⟩, ⟨rfl, rfl⟩, ⟨rfl, rfl⟩, ⟨rfl, rfl⟩, ⟨rfl, rfl⟩,
   ⟨rfl, rfl⟩, ⟨rfl, rfl⟩⟩

/-- Claim C4: once its module import resolves, the serve handler calls
`createServer` exactly once, with exactly the object built from the
positional root, the five global options, and `cleanOptions(options)`
as `server`; when that call succeeds, it then calls `listen` on the
result. -/
theorem serve_calls_createServer_then_listen (root : JSValue)
    (opts : OptionsBag) (cs li : Except JsError Unit) :
    (serveAction root opts (.ok ()) cs li).calls =
      SubCall.createServer (mkServerCallArg root opts) ::
        (match cs with
          | .ok _ => [SubCall.listen]
          | .error _ => []) := by
  cases cs <;> cases li <;> rfl

/-- Claim C5: once its module import resolves, the build handler calls
`build` exactly once, with exactly the object built from the positional
root, the five global options, and `cleanOptions(options)` as `build`;
on success it logs nothing, does not exit, and makes no further calls
(the handler just returns). -/
theorem build_calls_builder_once (root : JSValue) (opts : OptionsBag)
    (br : Except JsError Unit) :
    (buildAction root opts (.ok ()) br).calls
        = [SubCall.build (mkBuildCallArg root opts)]
    ∧ (buildAction root opts (.ok ()) (.ok ())).logs = []
    ∧ (buildAction root opts (.ok ()) (.ok ())).exit = none
    ∧ (buildAction root opts (.ok ()) (.ok ())).uncaught = none := by
  refine ⟨?_, rfl, rfl, rfl⟩
  cases br <;> rfl

/-- Claim C6: the optimize handler first calls `resolveConfig` with the
inline object holding only root, base, configFile and logLevel, with
command `build` and default mode `development`; when that resolves, it
calls `optimizeDeps` exactly once with the resolved config, the value
of the force option, and `isManualInvocation = true`. -/
theorem optimize_resolves_then_optimizes_once (root : JSValue)
    (opts : OptionsBag) (rc : Except JsError Nat) (oc : Except JsError Unit) :
    (optimizeAction root opts (.ok ()) rc oc).calls =
      SubCall.resolveConfig (mkOptimizeResolveArg root opts) "build" "development" ::
        (match rc with
          | .ok config => [SubCall.optimizeDeps config (getProp opts "force") true]
          | .error _ => []) := by
  cases rc <;> cases oc <;> rfl

/-- Claim C7: the preview handler calls `resolveConfig` with the inline
object holding root, base, configFile, logLevel and the nested
`server.open = options.open` override, with command `serve` and default
mode `development`; when that resolves, it calls `preview` exactly once
with the resolved config and the port option. -/
theorem preview_resolves_then_previews_once (root : JSValue)
    (opts : OptionsBag) (rc : Except JsError Nat) (pc : Except JsError Unit) :
    ((previewAction root opts rc pc).calls =
      SubCall.resolveConfig (mkPreviewResolveArg root opts) "serve" "development" ::
        (match rc with
          | .ok config => [SubCall.preview config (getProp opts "port")]
          | .error _ => []))
    ∧ (mkPreviewResolveArg root opts).server
        = some { openFlag := getProp opts "open" } := by
  refine ⟨?_, rfl⟩
  cases rc <;> cases pc <;> rfl

/-- Claim C9 counterexample: the preview subsystem module is imported
statically (cli.ts line 7), so it loads at program startup and loads
even when an unrelated command such as build runs. -/
theorem preview_module_eager_cex :
    previewModule ∈ startupModules
    ∧ previewModule ∈ modulesLoaded CliCommand.build := by decide

/-- Claim C9 (amended): the dev server, builder and optimizer modules
load only when their own command is dispatched and never at startup;
the preview server module, however, is imported statically and loads at
startup, for every command. -/
theorem lazy_loading_except_preview (c : CliCommand) :
    (devServerModule ∈ modulesLoaded c ↔ c = CliCommand.serve)
    ∧ (builderModule ∈ modulesLoaded c ↔ c = CliCommand.build)
    ∧ (optimizerModule ∈ modulesLoaded c ↔ c = CliCommand.optimize)
    ∧ devServerModule ∉ startupModules
    ∧ builderModule ∉ startupModules
    ∧ optimizerModule ∉ startupModules
    ∧ previewModule ∈ startupModules
    ∧ previewModule ∈ modulesLoaded c := by
  cases c <;> decide

/-- Claim C8 counterexample: with the options bag holding `minify`
bound to `undefined`, the object the build handler forwards to `build`
under its `build` field still has the `minify` key (bound to
`undefined`): `cleanOptions` deletes only the fixed global keys and the
spread copy keeps keys bound to `undefined`. -/
theorem build_minify_undefined_kept_cex :
    lookupKey (mkBuildCallArg JSValue.undefined
        [("minify", JSValue.undefined)]).build "minify" ≠ none
    ∧ lookupKey (mkBuildCallArg JSValue.undefined
        [("minify", JSValue.undefined)]).build "minify" = some JSValue.undefined
    ∧ (buildAction JSValue.undefined [("minify", JSValue.undefined)]
        (Except.ok ()) (Except.ok ())).calls
      = [SubCall.build (mkBuildCallArg JSValue.undefined
          [("minify", JSValue.undefined)])] := by decide

/-- Claim C8 (amended): when the build handler's options bag has the
key `minify` bound to `undefined`, the options object forwarded to the
builder entry point under the `build` field contains the `minify` key
bound to `undefined` (present, not absent): `cleanOptions` removes only
the global keys. -/
theorem build_minify_undefined_forwarded (root : JSValue)
    (opts : OptionsBag) (br : Except JsError Unit)
    (h : lookupKey opts "minify" = some JSValue.undefined) :
    (buildAction root opts (.ok ()) br).calls
        = [SubCall.build (mkBuildCallArg root opts)]
    ∧ lookupKey (mkBuildCallArg root opts).build "minify"
        = some JSValue.undefined := by
  constructor
  · cases br <;> rfl
  · show lookupKey (cleanOptions opts) "minify" = some JSValue.undefined
    rw [lookupKey_cleanOptions, if_neg (by decide)]
    exact h

/-- Witness for the amended C8 at a concrete bag. -/
theorem build_minify_undefined_forwarded_wit :
    (buildAction JSValue.undefined [("minify", JSValue.undefined)]
        (Except.ok ()) (Except.ok ())).calls
      = [SubCall.build (mkBuildCallArg JSValue.undefined
          [("minify", JSValue.undefined)])]
    ∧ lookupKey (mkBuildCallArg JSValue.undefined
        [("minify", JSValue.undefined)]).build "minify" = some JSValue.undefined :=
  build_minify_undefined_forwarded JSValue.undefined
    [("minify", JSValue.undefined)] (Except.ok ()) (by decide)

/-! For claim C10, JS property assignment `m.k = v` (overwrite in place
when the key exists, append otherwise) lets us state that the
`resolveConfig` argument the optimize and preview handlers build is
independent of the `mode` option. -/

/-- Overwrite the value of an entry whose key is `k`, keep others. -/
def overwriteVal (k : String) (v : JSValue) (p : String × JSValue) :
    String × JSValue :=
  if p.1 = k then (p.1, v) else p

/-- JS property assignment `m[k] = v`: overwrite in place when the key
exists, append otherwise. -/
def setProp (m : OptionsBag) (k : String) (v : JSValue) : OptionsBag :=
  if m.any (fun p => p.1 == k) then m.map (overwriteVal k v)
  else m ++ [(k, v)]

theorem lookupKey_map_set (m : OptionsBag) (k : String) (v : JSValue)
    (q : String) (hq : ¬ q = k) :
    lookupKey (m.map (overwriteVal k v)) q = lookupKey m q := by
  induction m with
  | nil => rfl
  | cons hd tl ih =>
    obtain ⟨a, b⟩ := hd
    rw [List.map_cons]
    by_cases hak : a = k
    · have h1 : overwriteVal k v (a, b) = (a, v) := if_pos hak
      have haq : ¬ a = q := fun h => hq ((hak ▸ h : k = q)).symm
      rw [h1]
      simp [lookupKey, haq, ih]
    · have h1 : overwriteVal k v (a, b) = (a, b) := if_neg hak
      rw [h1]
      simp [lookupKey, ih]

theorem lookupKey_append_single (m : OptionsBag) (k : String) (v : JSValue)
    (q : String) (hq : ¬ q = k) :
    lookupKey (m ++ [(k, v)]) q = lookupKey m q := by
  induction m with
  | nil =>
    have hkq : ¬ k = q := fun h => hq h.symm
    simp [lookupKey, hkq]
  | cons hd tl ih =>
    obtain ⟨a, b⟩ := hd
    by_cases haq : a = q <;> simp [lookupKey, haq, ih]

theorem lookupKey_setProp_ne (m : OptionsBag) (k : String) (v : JSValue)
    (q : String) (hq : ¬ q = k) :
    lookupKey (setProp m k v) q = lookupKey m q := by
  unfold setProp
  split
  · exact lookupKey_map_set m k v q hq
  · exact lookupKey_append_single m k v q hq

/-- Claim C10: for optimize and preview the default environment mode
passed to `resolveConfig` is the hard-coded string `development` (with
command `build` for optimize, `serve` for preview), and the
`resolveConfig` argument is unchanged by any value of the user's
`mode` option (it is never forwarded). -/
theorem deps_resolve_mode_hardcoded (root : JSValue) (opts : OptionsBag)
    (rc rc2 : Except JsError Nat) (oc pc : Except JsError Unit) (v : JSValue) :
    (optimizeAction root opts (.ok ()) rc oc).calls.head?
        = some (SubCall.resolveConfig (mkOptimizeResolveArg root opts)
            "build" "development")
    ∧ (previewAction root opts rc2 pc).calls.head?
        = some (SubCall.resolveConfig (mkPreviewResolveArg root opts)
            "serve" "development")
    ∧ mkOptimizeResolveArg root (setProp opts "mode" v)
        = mkOptimizeResolveArg root opts
    ∧ mkPreviewResolveArg root (setProp opts "mode" v)
        = mkPreviewResolveArg root opts := by
  have hb := lookupKey_setProp_ne opts "mode" v "base" (by decide)
  have hc := lookupKey_setProp_ne opts "mode" v "config" (by decide)
  have hl := lookupKey_setProp_ne opts "mode" v "logLevel" (by decide)
  have ho := lookupKey_setProp_ne opts "mode" v "open" (by decide)
  refine ⟨?_, ?_, ?_, ?_⟩
  · cases rc <;> cases oc <;> rfl
  · cases rc2 <;> cases pc <;> rfl
  · simp [mkOptimizeResolveArg, getProp, hb, hc, hl]
  · simp [mkPreviewResolveArg, getProp, hb, hc, hl, ho]

end ViteCli
